import Mathlib

/-!
# Verification of the COVID dashboard's filtering-and-aggregation pipeline

This file gives a shallow embedding, in Lean 4, of the data pipeline of
`src/app.py`: the sidebar filter (lines 192-202), the latest-per-entity
snapshot (line 204), the KPI period delta (lines 249-267), the top-N ranking
(line 334), the continent summary (lines 571-579), the correlation matrix
(lines 684-716), the monthly cases heatmap (lines 722-727), and the dataset
loader (lines 123-131).

Pandas tables are embedded as `List Record`; a boolean-mask filter becomes
`List.filter`; `groupby` with its default `sort=True` becomes a map over
the sorted, deduplicated keys; `NaN` cells produced by division-by-zero
guards and by `pivot` are made explicit with `Option`.  Integer-valued
counters (`total_cases`, `new_cases`, `total_deaths`, `population`) are
embedded as `Int`, fractional columns as `ℚ`, calendar dates as `Int` day
numbers (only their linear order is used).

Sorting.  `sort_values('date')` uses pandas' default kind='quicksort',
which is NOT stable: the relative order of rows with equal dates in its
output is unspecified.  The executable pipeline therefore fixes one
admissible output — the stable insertion sort `sortK` —, and the snapshot
theorem (claim C1) is stated and proved for EVERY date-ordered permutation
of the window (`date_sorted_perm`), so nothing proved about the snapshot
depends on which admissible arrangement quicksort actually returns.
`nlargest`, by contrast, documents keep='first' (earlier rows win ties), so
its stable model is the documented behavior, not a determinization.

`groupby(...).last()` takes, for each column, the last non-missing value of
the group; `groupby_last` models that per-column composite (only the
continent column of `Record` can be missing). -/

namespace DV

/-! ## Stable sorting (model of pandas sort_values / nlargest ordering) -/

/-- Stable insertion of `x` into `l`, ordered by `key`: `x` is placed before
the first element whose key is `≥ key x`, so earlier-inserted elements with
equal keys stay in front. -/
def insertK {α : Type _} {β : Type _} [LinearOrder β] (key : α → β) (x : α) : List α → List α
  | [] => [x]
  | y :: ys => if key x ≤ key y then x :: y :: ys else y :: insertK key x ys

/-- Stable insertion sort by `key`; the model of pandas `sort_values`. -/
def sortK {α : Type _} {β : Type _} [LinearOrder β] (key : α → β) : List α → List α
  | [] => []
  | x :: xs => insertK key x (sortK key xs)


/-! ## Data model

One row of the pre-cleaned CSV, restricted to the columns the pipeline under
verification touches.  Counters are `Int` (counts), static covariates and
rates are `ℚ`, `date` is an `Int` day number (only its order is used), and
`continent` is `Option String` because the continent column may be missing
(`NaN`) for a row; a missing continent compares unequal to every selected
continent, as `NaN` does in pandas. -/

structure Record where
  location : String
  continent : Option String
  date : Int
  total_cases : Int
  new_cases : Int
  total_deaths : Int
  population : Int
  vaccination_rate : ℚ
  gdp_per_capita : ℚ
  population_density : ℚ
  median_age : ℚ
  hospital_beds_per_thousand : ℚ
  life_expectancy : ℚ
deriving DecidableEq, Repr

/-- The sidebar selections that parameterize one recomputation pass:
date range (inclusive), continent (none models the sidebar value All) and
the entity multiselect (empty list models no selection). -/
structure FilterSel where
  date_from : Int
  date_to : Int
  region_group : Option String
  entities : List String
deriving DecidableEq, Repr

/-! ## Filter engine (src/app.py lines 192-199) -/

/-- Lines 192-196: the boolean mask
(date >= start) and (date <= end) [and (continent == selected) when a
continent is selected], applied to the full table. -/
def global_df (rows : List Record) (F : FilterSel) : List Record :=
  rows.filter fun r =>
    decide (F.date_from ≤ r.date) && decide (r.date ≤ F.date_to) &&
      match F.region_group with
      | some c => decide (r.continent = some c)
      | none => true

/-- Line 199 composed with lines 192-196: the full filter with the entity
multiselect applied when it is non-empty (when it is empty the engine
applies no entity predicate; the top-5 fallback of line 201 is part of
trend_df, not of the filter). -/
def filterF (rows : List Record) (F : FilterSel) : List Record :=
  if F.entities.isEmpty then global_df rows F
  else (global_df rows F).filter fun r => F.entities.contains r.location

/-! ## Latest-per-entity snapshot (src/app.py line 204) -/

/-- The standard (code-point lexicographic) order on strings in the
kernel-computable form of its character list; String.le_iff_toList_le shows
it is exactly the order of String's LinearOrder, which is how Python
compares the location names. -/
def locKey (s : String) : List Char := s.data

/-- The distinct locations of a table in ascending order: the index that
pandas groupby('location') (with its default sort=True) produces. -/
def location_keys (g : List Record) : List String :=
  sortK locKey ((g.map (·.location)).dedup)

/-- DataFrameGroupBy.last() on one (date-ordered) group of rows: pandas
takes, for each column, the last non-missing value within the group.  Every
column of Record except continent is total, so the result is the group's
last row with its continent replaced by the group's last non-missing
continent (none when the whole group has none) — a composite that need not
be a literal input row. -/
def groupby_last (grp : List Record) : Option Record :=
  grp.getLast?.map fun x => { x with continent := (grp.filterMap (·.continent)).getLast? }

/-- The snapshot built from one date-ordered arrangement s of the window g:
one output row per distinct location of g, in ascending location order
(groupby's sorted keys), each obtained by groupby_last on that location's
rows of s. -/
def snapshot_of (g s : List Record) : List Record :=
  (location_keys g).filterMap fun k =>
    groupby_last (s.filter fun r => decide (r.location = k))

/-- A date-ordered arrangement of the window: any permutation of its rows
that is ascending in date.  sort_values('date') with its default unstable
quicksort returns some such arrangement, with the relative order of rows
with equal dates unspecified. -/
def date_sorted_perm (g s : List Record) : Prop :=
  List.Perm s g ∧ s.Pairwise fun a b => a.date ≤ b.date

/-- Line 204: global_df.sort_values('date').groupby('location').last().reset_index().
The executable pipeline runs on one admissible arrangement of the unstable
sort (the stable sortK one); the snapshot theorem quantifies over every
date-ordered arrangement, so no result about the snapshot depends on this
choice. -/
def latest_global (g : List Record) : List Record :=
  snapshot_of g (sortK (fun r : Record => r.date) g)

/-! ## KPI period delta (src/app.py lines 249, 255-267) -/

/-- Line 249: latest_global['total_cases'].sum(). -/
def total_cases_kpi (g : List Record) : Int :=
  ((latest_global g).map (·.total_cases)).sum

/-- Line 256: global_df[global_df['date'] <= end_date - 30 days]. -/
def past_data (g : List Record) (end_date : Int) : List Record :=
  g.filter fun r => decide (r.date ≤ end_date - 30)

/-- Line 258: past_data[past_data['date'] == past_data['date'].max()]. -/
def past_latest (g : List Record) (end_date : Int) : List Record :=
  (past_data g end_date).filter fun r =>
    decide (some r.date = ((past_data g end_date).map (·.date)).max?)

/-- Line 259: past_latest['total_cases'].sum(). -/
def prev_cases (g : List Record) (end_date : Int) : Int :=
  ((past_latest g end_date).map (·.total_cases)).sum

/-- Lines 255-267: the cases KPI delta.  none models the absent delta
(delta=None); the percentage string is stripped to its numeric value.
The code computes the formula only under the guard prev_cases > 0, and
produces None both when past_data is empty and when the guard fails. -/
def cases_delta (g : List Record) (end_date : Int) : Option ℚ :=
  if (past_data g end_date).isEmpty then none
  else if 0 < prev_cases g end_date then
    some ((((total_cases_kpi g : ℚ) - (prev_cases g end_date : ℚ)) /
      (prev_cases g end_date : ℚ)) * 100)
  else none

/-! ## Top-N ranking (src/app.py line 334) -/

/-- DataFrame.nlargest(n, column): modelled as the stable descending sort by
the column followed by take n; pandas documents nlargest as equivalent to
sort_values(column, ascending=False).head(n) with keep='first', which
retains the earlier of tied rows. -/
def nlargest {β : Type _} [LinearOrder β] (n : ℕ) (metric : Record → β)
    (rows : List Record) : List Record :=
  (sortK (fun r => OrderDual.toDual (metric r)) rows).take n

/-- Line 334: latest_global.nlargest(10, metric_col).sort_values(metric_col, ascending=True).
The metric column is any numeric column accessor (the code offers
total_cases, total_deaths, vaccination_rate, total_cases_per_million). -/
def top_df {β : Type _} [LinearOrder β] (metric : Record → β) (g : List Record) : List Record :=
  sortK metric (nlargest 10 metric (latest_global g))

/-! ## Default trend selection (src/app.py lines 198-202) -/

/-- Line 201: global_df.groupby('location')['total_cases'].max() — the
per-entity maximum of total_cases (0 is never read: every key in
location_keys has a non-empty group). -/
def max_cases (g : List Record) (k : String) : Int :=
  (((g.filter fun r => decide (r.location = k)).map (·.total_cases)).max?).getD 0

/-- Line 201 (and line 722 with n = 15): series.nlargest(n).index for the
per-entity max-cases series, whose index order is the ascending key order of
groupby. -/
def top_locations (n : ℕ) (g : List Record) : List String :=
  ((sortK (fun p : String × Int => OrderDual.toDual p.2)
      ((location_keys g).map fun k => (k, max_cases g k))).take n).map Prod.fst

/-- Lines 198-202: the frame feeding the trend charts; an empty selection
falls back to the top-5 entities by max total_cases within the window. -/
def trend_df (g : List Record) (selected : List String) : List Record :=
  if selected.isEmpty then g.filter fun r => (top_locations 5 g).contains r.location
  else g.filter fun r => selected.contains r.location

/-! ## Continent summary (src/app.py lines 571-576) -/

/-- One output row of the continent aggregation. -/
structure ContinentRow where
  continent : String
  total_cases : Int
  total_deaths : Int
  population : Int
  vaccination_rate : ℚ
deriving DecidableEq, Repr

/-- The mean of a list of rationals (pandas mean of a non-empty series; the
empty case is never read in this file). -/
def meanQ (xs : List ℚ) : ℚ := xs.sum / xs.length

/-- The distinct continents appearing in a table, ascending; pandas groupby
drops rows whose key is missing (dropna=True), hence the filterMap. -/
def continent_keys (latest : List Record) : List String :=
  sortK locKey ((latest.filterMap (·.continent)).dedup)

/-- Lines 571-576: latest_global.groupby('continent').agg(sum, sum, sum, mean).
One row per continent that actually occurs; a continent with no rows in the
input simply has no output row. -/
def continent_summary (latest : List Record) : List ContinentRow :=
  (continent_keys latest).map fun c =>
    let grp := latest.filter fun r => decide (r.continent = some c)
    { continent := c
      total_cases := (grp.map (·.total_cases)).sum
      total_deaths := (grp.map (·.total_deaths)).sum
      population := (grp.map (·.population)).sum
      vaccination_rate := meanQ (grp.map (·.vaccination_rate)) }

/-! ## Monthly heatmap pivot (src/app.py lines 722-727) -/

/-- Line 723: global_df restricted to the 15 entities with the largest max
total_cases in the window. -/
def heatmap_data (g : List Record) : List Record :=
  g.filter fun r => (top_locations 15 g).contains r.location

/-- The distinct (location, month) pairs of the restricted frame, in the
lexicographic order groupby uses; to_period('M') is abstracted into an
arbitrary month assignment toMonth on day numbers. -/
def pivot_keys (hd : List Record) (toMonth : Int → Int) : List (String × Int) :=
  sortK (fun p : String × Int => toLex (locKey p.1, p.2))
    ((hd.map fun r => (r.location, toMonth r.date)).dedup)

/-- Line 726: heatmap_data.groupby(['location', 'month'])['new_cases'].sum(),
one (key, sum) entry per (location, month) pair that occurs. -/
def heatmap_pivot (hd : List Record) (toMonth : Int → Int) : List ((String × Int) × Int) :=
  (pivot_keys hd toMonth).map fun k =>
    (k, ((hd.filter fun r => decide ((r.location, toMonth r.date) = k)).map (·.new_cases)).sum)

/-- Association lookup with default 0: pivot leaves cells with no group
entry as NaN and line 727's fillna(0) turns exactly those cells into 0. -/
def assocCell (k : String × Int) : List ((String × Int) × Int) → Int
  | [] => 0
  | e :: es => if e.1 = k then e.2 else assocCell k es

/-- Line 727: the value of the pivoted-and-filled matrix at (location, month). -/
def heatmap_cell (g : List Record) (toMonth : Int → Int) (loc : String) (m : Int) : Int :=
  assocCell (loc, m) (heatmap_pivot (heatmap_data g) toMonth)

/-! ## Correlation matrix (src/app.py lines 684-716) -/

/-- Line 684-685: the fixed list of columns the correlation is taken over. -/
def corr_cols : List (Record → ℚ) :=
  [fun r => (r.total_cases : ℚ), fun r => (r.total_deaths : ℚ),
   (·.gdp_per_capita), (·.population_density), (·.median_age),
   (·.vaccination_rate), (·.hospital_beds_per_thousand), (·.life_expectancy)]

/-- Line 686: the values of one column of latest_global. -/
def colV (g : List Record) (f : Record → ℚ) : List ℚ :=
  (latest_global g).map f

/-- The de-meaned cross sum pandas nancorr computes for a column pair
(columns of equal length; both are columns of the same snapshot frame). -/
def covQ (xs ys : List ℚ) : ℚ :=
  (List.zipWith (fun a b => (a - meanQ xs) * (b - meanQ ys)) xs ys).sum

/-- The de-meaned sum of squares of one column. -/
def varQ (xs : List ℚ) : ℚ := covQ xs xs

/-- One entry of DataFrame.corr(): Pearson correlation
cov / sqrt(var_x * var_y); pandas nancorr emits NaN (here none) whenever the
divisor is zero, i.e. when either column has zero variance — including on
the diagonal for a constant column. -/
noncomputable def corrE (xs ys : List ℚ) : Option ℝ :=
  if varQ xs * varQ ys = 0 then none
  else some ((covQ xs ys : ℝ) / Real.sqrt ((varQ xs * varQ ys : ℚ) : ℝ))

/-- Line 689: corr_df.corr(), as the square matrix of pairwise entries over
corr_cols. -/
noncomputable def corr_matrix (g : List Record) : List (List (Option ℝ)) :=
  corr_cols.map fun f => corr_cols.map fun g2 => corrE (colV g f) (colV g g2)

/-- Lines 688 and 715-716: the guard
(if not corr_df.empty and len(corr_df) > 10) around the matrix; none models
the insufficient-data warning branch. -/
noncomputable def analysis_corr (g : List Record) : Option (List (List (Option ℝ))) :=
  if latest_global g ≠ [] ∧ 10 < (latest_global g).length then some (corr_matrix g)
  else none

/-- Entry (i, j) of a matrix given as rows; none when out of range. -/
def mEntry {γ : Type _} (M : List (List γ)) (i j : ℕ) : Option γ :=
  (M[i]?).bind fun row => row[j]?

/-! ## Dataset loader (src/app.py lines 123-131) -/

/-- The outcome of pd.read_csv (and, reused, of date parsing): the file can
be absent (FileNotFoundError), present but unparsable (ParserError or a
similar non-FileNotFoundError exception), or parsed. -/
inductive ReadResult (τ : Type _) where
  | fileNotFound : ReadResult τ
  | parseFailure : ReadResult τ
  | ok : τ → ReadResult τ
deriving DecidableEq, Repr

/-- What the process observes after running load_data. -/
inductive LoadOutcome (σ : Type _) where
  | table : σ → LoadOutcome σ
  | stoppedWithDataError : LoadOutcome σ
  | uncaughtException : LoadOutcome σ
deriving DecidableEq, Repr

/-- Lines 123-131: try read_csv / to_datetime, except FileNotFoundError
show a clear error and st.stop().  read_csv is abstracted to its outcome and
to_datetime to a fallible parsing function on the raw table (none models a
raised parse error).  Only FileNotFoundError is caught: it alone reaches the
clear-message-and-halt branch (stoppedWithDataError); any other failure
escapes the try as an uncaught exception. -/
def load_data {τ σ : Type _} (read_csv : ReadResult τ) (to_datetime : τ → Option σ) :
    LoadOutcome σ :=
  match read_csv with
  | .fileNotFound => .stoppedWithDataError
  | .parseFailure => .uncaughtException
  | .ok t =>
    match to_datetime t with
    | some t2 => .table t2
    | none => .uncaughtException

/-! ## Derived metric (not in src/) -/

/-- Modelled from the spec: vaccination_rate is computed by the data
preprocessing that produces cleaned_covid_data.csv, which is not part of
src/ (src/app.py only consumes the column).  The spec defines the metric as
min(people_vaccinated / population, 1) * 100, clamped at 100 percent. -/
def vaccination_rate (people_vaccinated population : ℚ) : ℚ :=
  min (people_vaccinated / population) 1 * 100

/-! ## Shared helpers for concrete tables -/

/-- A record with the given location, continent, date, total_cases and
new_cases, and every other column zero. -/
def mkRec (loc : String) (ct : Option String) (d tc nc : Int) : Record :=
  { location := loc, continent := ct, date := d, total_cases := tc, new_cases := nc,
    total_deaths := 0, population := 0, vaccination_rate := 0, gdp_per_capita := 0,
    population_density := 0, median_age := 0, hospital_beds_per_thousand := 0,
    life_expectancy := 0 }

/-- The table of the C4 counterexample: one entity whose total_cases column
is -5 in the comparison window and 10 at the window end. -/
def deltaTable : List Record := [mkRec "B" none 1 (-5) 0, mkRec "B" none 40 10 0]

/-- The table of the C10 counterexample: one row dated outside the filter
window, so the filtered window is empty and so is the default trend subset. -/
def trendTable : List Record := [mkRec "A" none 1 3 3]

/-- The window of the C10 counterexample. -/
def trendFilter : FilterSel :=
  { date_from := 10, date_to := 20, region_group := none, entities := [] }

/-- The table of the C1 counterexample: two entities encountered in the
order B, A. -/
def snapshotTable : List Record := [mkRec "B" none 1 5 0, mkRec "A" none 2 7 0]

/-- The table of the C6 counterexample: two entities, one with rows only in
month 1 and one with rows only in month 2 (months are day numbers under
toMonth = id). -/
def pivotTable : List Record :=
  [mkRec "A" (some "X") 1 3 3, mkRec "B" (some "Y") 2 4 4]

/-- The table of the C3 counterexample: eleven entities encountered in
reverse alphabetical order K..A, all with the same metric value. -/
def rankTable : List Record :=
  [mkRec "K" none 0 1 0, mkRec "J" none 0 1 0, mkRec "I" none 0 1 0,
   mkRec "H" none 0 1 0, mkRec "G" none 0 1 0, mkRec "F" none 0 1 0,
   mkRec "E" none 0 1 0, mkRec "D" none 0 1 0, mkRec "C" none 0 1 0,
   mkRec "B" none 0 1 0, mkRec "A" none 0 1 0]

/-- The table of the C5 counterexample: eleven entities (so the 10-row gate
passes) whose total_cases column is the constant 7. -/
def constTable : List Record :=
  [mkRec "A" none 0 7 0, mkRec "B" none 1 7 0, mkRec "C" none 2 7 0,
   mkRec "D" none 3 7 0, mkRec "E" none 4 7 0, mkRec "F" none 5 7 0,
   mkRec "G" none 6 7 0, mkRec "H" none 7 7 0, mkRec "I" none 8 7 0,
   mkRec "J" none 9 7 0, mkRec "K" none 10 7 0]

/-- The table of the C5 witness: eleven entities with spread-out total_cases
values 0..10, so the first column has nonzero variance. -/
def spreadTable : List Record :=
  [mkRec "A" none 0 0 0, mkRec "B" none 1 1 0, mkRec "C" none 2 2 0,
   mkRec "D" none 3 3 0, mkRec "E" none 4 4 0, mkRec "F" none 5 5 0,
   mkRec "G" none 6 6 0, mkRec "H" none 7 7 0, mkRec "I" none 8 8 0,
   mkRec "J" none 9 9 0, mkRec "K" none 10 10 0]

/-! ## Theorems -/

theorem insertK_perm {α β : Type _} [LinearOrder β] (key : α → β) (x : α) (l : List α) :
    List.Perm (insertK key x l) (x :: l) := by
  induction l with
  | nil => simp [insertK]
  | cons y ys ih =>
    by_cases h : key x ≤ key y
    · simp [insertK, h]
    · simp only [insertK, if_neg h]
      exact List.Perm.trans (List.Perm.cons y ih) (List.Perm.swap x y ys)

theorem sortK_perm {α β : Type _} [LinearOrder β] (key : α → β) (l : List α) :
    List.Perm (sortK key l) l := by
  induction l with
  | nil => simp [sortK]
  | cons x xs ih =>
    exact List.Perm.trans (insertK_perm key x (sortK key xs)) (List.Perm.cons x ih)

theorem sortK_length {α β : Type _} [LinearOrder β] (key : α → β) (l : List α) :
    (sortK key l).length = l.length :=
  (sortK_perm key l).length_eq

theorem sortK_mem {α β : Type _} [LinearOrder β] (key : α → β) (l : List α) (a : α) :
    a ∈ sortK key l ↔ a ∈ l :=
  (sortK_perm key l).mem_iff

theorem insertK_pairwise {α β : Type _} [LinearOrder β] (key : α → β) (x : α) (l : List α)
    (hl : l.Pairwise (fun a b => key a ≤ key b)) :
    (insertK key x l).Pairwise (fun a b => key a ≤ key b) := by
  induction l with
  | nil => simp [insertK]
  | cons y ys ih =>
    rcases List.pairwise_cons.mp hl with ⟨hy, hys⟩
    by_cases h : key x ≤ key y
    · rw [insertK, if_pos h]
      refine List.pairwise_cons.mpr ⟨?_, hl⟩
      intro a ha
      rcases List.mem_cons.mp ha with rfl | ha
      · exact h
      · exact le_trans h (hy a ha)
    · rw [insertK, if_neg h]
      refine List.pairwise_cons.mpr ⟨?_, ih hys⟩
      intro a ha
      have ha' := (insertK_perm key x ys).mem_iff.mp ha
      rcases List.mem_cons.mp ha' with rfl | ha'
      · exact le_of_lt (lt_of_not_le h)
      · exact hy a ha'

theorem sortK_pairwise {α β : Type _} [LinearOrder β] (key : α → β) (l : List α) :
    (sortK key l).Pairwise (fun a b => key a ≤ key b) := by
  induction l with
  | nil => simp [sortK]
  | cons x xs ih => exact insertK_pairwise key x (sortK key xs) ih

theorem insertK_of_forall_le {α β : Type _} [LinearOrder β] (key : α → β) (x : α) (l : List α)
    (h : ∀ y ∈ l, key x ≤ key y) : insertK key x l = x :: l := by
  cases l with
  | nil => rfl
  | cons y ys => simp [insertK, h y (by simp)]

theorem insertK_filter {α β : Type _} [LinearOrder β] (key : α → β) (x : α) (p : α → Bool)
    (l : List α) (hl : l.Pairwise (fun a b => key a ≤ key b)) :
    (insertK key x l).filter p =
      if p x then insertK key x (l.filter p) else l.filter p := by
  induction l with
  | nil => cases h : p x <;> simp [insertK, List.filter, h]
  | cons y ys ih =>
    rcases List.pairwise_cons.mp hl with ⟨hy, hys⟩
    by_cases h : key x ≤ key y
    · rw [insertK, if_pos h]
      cases hx : p x with
      | false => simp [List.filter, hx]
      | true =>
        simp only [List.filter, hx, if_true]
        cases hpy : p y with
        | true =>
          have : insertK key x (y :: ys.filter p) = x :: y :: ys.filter p := by
            rw [insertK, if_pos h]
          simp [List.filter, hpy, this]
        | false =>
          have hall : ∀ z ∈ ys.filter p, key x ≤ key z := by
            intro z hz
            exact le_trans h (hy z (List.mem_of_mem_filter hz))
          simp [List.filter, hpy, insertK_of_forall_le key x _ hall]
    · rw [insertK, if_neg h]
      cases hx : p x with
      | false =>
        cases hpy : p y <;> simp [List.filter, hpy, hx, ih hys]
      | true =>
        cases hpy : p y with
        | true =>
          have hstep : insertK key x (y :: ys.filter p) = y :: insertK key x (ys.filter p) := by
            rw [insertK, if_neg h]
          simp [List.filter, hpy, hx, ih hys, hstep]
        | false =>
          simp [List.filter, hpy, hx, ih hys]

theorem sortK_filter {α β : Type _} [LinearOrder β] (key : α → β) (p : α → Bool) (l : List α) :
    (sortK key l).filter p = sortK key (l.filter p) := by
  induction l with
  | nil => simp [sortK]
  | cons x xs ih =>
    rw [sortK, insertK_filter key x p (sortK key xs) (sortK_pairwise key xs), ih]
    cases h : p x with
    | true => simp [List.filter, h, sortK]
    | false => simp [List.filter, h]

theorem mem_of_getLast?_eq {α : Type _} {l : List α} {b : α} (h : l.getLast? = some b) :
    b ∈ l := by
  have hne : l ≠ [] := by
    rintro rfl
    simp at h
  rw [List.getLast?_eq_getLast_of_ne_nil hne] at h
  have hb : l.getLast hne = b := Option.some_inj.mp h
  rw [← hb]
  exact List.getLast_mem hne

theorem getLast?_cons_ne {α : Type _} (y : α) (l : List α) (h : l ≠ []) :
    (y :: l).getLast? = l.getLast? := by
  have := List.getLast?_append_of_ne_nil [y] h
  simpa using this

/-- In a list sorted (Pairwise le) by key, the last element attains the
maximum of the key. -/
theorem pairwise_getLast?_max {α β : Type _} [LinearOrder β] (key : α → β) {l : List α}
    (hp : l.Pairwise (fun a b => key a ≤ key b)) {b : α} (hb : l.getLast? = some b) :
    ∀ a ∈ l, key a ≤ key b := by
  induction l with
  | nil =>
    intro a ha
    cases ha
  | cons x xs ih =>
    rcases List.pairwise_cons.mp hp with ⟨hx, hxs⟩
    cases xs with
    | nil =>
      have hbx : x = b := by simpa using hb
      intro a ha
      rcases List.mem_cons.mp ha with rfl | h
      · exact le_of_eq (congrArg key hbx)
      · cases h
    | cons y ys =>
      have hne : (y :: ys) ≠ ([] : List α) := by simp
      rw [getLast?_cons_ne x _ hne] at hb
      have hbmem : b ∈ y :: ys := mem_of_getLast?_eq hb
      intro a ha
      rcases List.mem_cons.mp ha with rfl | h
      · exact hx b hbmem
      · exact ih hxs hb a h

theorem sortK_of_key_const {α β : Type _} [LinearOrder β] (key : α → β) (c : β) (l : List α)
    (h : ∀ a ∈ l, key a = c) : sortK key l = l := by
  induction l with
  | nil => rfl
  | cons x xs ih =>
    have hxs : sortK key xs = xs := ih (fun a ha => h a (by simp [ha]))
    rw [sortK, hxs]
    cases xs with
    | nil => rfl
    | cons y ys =>
      have : key x ≤ key y := by
        rw [h x (by simp), h y (by simp)]
      rw [insertK, if_pos this]

/-- Stability of `sortK` in the form used for tie-break arguments: the
subsequence of elements with any fixed key value is untouched by sorting. -/
theorem sortK_filter_key_eq {α β : Type _} [LinearOrder β] [DecidableEq β] (key : α → β)
    (c : β) (l : List α) :
    (sortK key l).filter (fun a => decide (key a = c)) =
      l.filter (fun a => decide (key a = c)) := by
  rw [sortK_filter]
  refine sortK_of_key_const key c _ ?_
  intro a ha
  have := List.of_mem_filter ha
  simpa using this

theorem contains_true_iff {α : Type _} [BEq α] [LawfulBEq α] (l : List α) (a : α) :
    l.contains a = true ↔ a ∈ l :=
  List.elem_iff

/-! ## Filter engine: soundness (claim C2) and idempotence (claim C9) -/

theorem global_df_sublist (rows : List Record) (F : FilterSel) :
    (global_df rows F).Sublist rows :=
  List.filter_sublist rows

theorem mem_global_df (rows : List Record) (F : FilterSel) (r : Record)
    (hr : r ∈ global_df rows F) :
    r ∈ rows ∧ (F.date_from ≤ r.date ∧ r.date ≤ F.date_to)
      ∧ (∀ c, F.region_group = some c → r.continent = some c) := by
  rcases List.mem_filter.mp hr with ⟨hmem, hcond⟩
  refine ⟨hmem, ?_, ?_⟩
  · cases hreg : F.region_group with
    | none =>
      rw [hreg] at hcond
      simp only [Bool.and_eq_true, decide_eq_true_eq] at hcond
      exact hcond.1
    | some c =>
      rw [hreg] at hcond
      simp only [Bool.and_eq_true, decide_eq_true_eq] at hcond
      exact hcond.1
  · intro c hc
    rw [hc] at hcond
    simp only [Bool.and_eq_true, decide_eq_true_eq] at hcond
    exact hcond.2

theorem global_df_empty_of_inverted (rows : List Record) (F : FilterSel)
    (h : F.date_to < F.date_from) : global_df rows F = [] := by
  refine List.filter_eq_nil_iff.mpr ?_
  intro r _
  intro hcond
  rcases Bool.and_eq_true_iff.mp hcond with ⟨hdates, _⟩
  rcases Bool.and_eq_true_iff.mp hdates with ⟨h1, h2⟩
  have h1' := of_decide_eq_true h1
  have h2' := of_decide_eq_true h2
  exact absurd (le_trans h1' h2') (not_le.mpr h)

/-- C2: for every Table and filter, the filtered result is a sublist of the
input table (hence a subset in the preserved original row order), every
returned row satisfies the conjunction of the date-range bound, the
region-group equality (when given) and entity membership (when the entity
set is non-empty), and an inverted date range yields an empty result rather
than an error. -/
theorem filter_engine_sound (rows : List Record) (F : FilterSel) :
    (filterF rows F).Sublist rows
    ∧ (∀ r ∈ filterF rows F,
        (F.date_from ≤ r.date ∧ r.date ≤ F.date_to)
        ∧ (∀ c, F.region_group = some c → r.continent = some c)
        ∧ (F.entities ≠ [] → r.location ∈ F.entities))
    ∧ (F.date_to < F.date_from → filterF rows F = []) := by
  refine ⟨?_, ?_, ?_⟩
  · unfold filterF
    by_cases h : F.entities.isEmpty
    · rw [if_pos h]
      exact global_df_sublist rows F
    · rw [if_neg h]
      exact List.Sublist.trans (List.filter_sublist _) (global_df_sublist rows F)
  · intro r hr
    unfold filterF at hr
    by_cases h : F.entities.isEmpty
    · rw [if_pos h] at hr
      rcases mem_global_df rows F r hr with ⟨_, hd, hreg⟩
      refine ⟨hd, hreg, ?_⟩
      intro hne
      exact absurd (List.isEmpty_iff.mp h) hne
    · rw [if_neg h] at hr
      rcases List.mem_filter.mp hr with ⟨hg, hcont⟩
      rcases mem_global_df rows F r hg with ⟨_, hd, hreg⟩
      exact ⟨hd, hreg, fun _ => (contains_true_iff _ _).mp hcont⟩
  · intro h
    unfold filterF
    rw [global_df_empty_of_inverted rows F h]
    by_cases he : F.entities.isEmpty
    · rw [if_pos he]
    · rw [if_neg he, List.filter_nil]

theorem filter_engine_sound_witness :
    filterF [mkRec "A" none 5 1 1]
      { date_from := 9, date_to := 3, region_group := none, entities := [] } = [] :=
  (filter_engine_sound [mkRec "A" none 5 1 1]
    { date_from := 9, date_to := 3, region_group := none, entities := [] }).2.2 (by decide)

theorem filter_self_idem {α : Type _} (p : α → Bool) (l : List α) :
    (l.filter p).filter p = l.filter p := by
  rw [List.filter_filter]
  exact List.filter_congr fun a _ => Bool.and_self (p a)

theorem filter_filter_idem2 {α : Type _} (p q : α → Bool) (l : List α) :
    (((l.filter p).filter q).filter p).filter q = (l.filter p).filter q := by
  simp only [List.filter_filter]
  exact List.filter_congr fun a _ => by cases p a <;> cases q a <;> rfl

/-- C9: filtering is idempotent — applying the same filter selections to an
already-filtered table returns it unchanged. -/
theorem filter_engine_idempotent (rows : List Record) (F : FilterSel) :
    filterF (filterF rows F) F = filterF rows F := by
  unfold filterF global_df
  by_cases h : F.entities.isEmpty
  · rw [if_pos h, if_pos h]
    exact filter_self_idem _ rows
  · rw [if_neg h, if_neg h]
    exact filter_filter_idem2 _ _ rows

/-! ## Dataset loader (claim C7) -/

/-- The amended C7: the loader halts with the clear data-unavailable message
exactly when the file is missing (FileNotFoundError); a present but
unparsable file — a CSV parse failure, or a date column to_datetime cannot
parse — escapes as an uncaught exception instead of the DataUnavailable
path; a parsed file yields the table with the date column parsed. -/
theorem load_data_spec {τ σ : Type _} (t : τ) (parse : τ → Option σ) :
    load_data ReadResult.fileNotFound parse = LoadOutcome.stoppedWithDataError
    ∧ load_data ReadResult.parseFailure parse = LoadOutcome.uncaughtException
    ∧ (∀ s, parse t = some s → load_data (ReadResult.ok t) parse = LoadOutcome.table s)
    ∧ (parse t = none → load_data (ReadResult.ok t) parse = LoadOutcome.uncaughtException) := by
  refine ⟨rfl, rfl, ?_, ?_⟩
  · intro s hs
    show (match parse t with
      | some t2 => LoadOutcome.table t2
      | none => LoadOutcome.uncaughtException) = LoadOutcome.table s
    rw [hs]
  · intro hs
    show (match parse t with
      | some t2 => LoadOutcome.table t2
      | none => LoadOutcome.uncaughtException) = LoadOutcome.uncaughtException
    rw [hs]

theorem load_data_spec_witness :
    load_data (ReadResult.ok ()) (fun t => some t) = LoadOutcome.table () :=
  (load_data_spec () (fun t => some t)).2.2.1 () rfl

/-- C7 counterexample: a source file that exists but cannot be parsed does
not reach the DataUnavailable (clear message, halt) branch — the parse error
escapes uncaught, because the try/except catches only FileNotFoundError. -/
theorem load_data_counterexample :
    load_data (ReadResult.parseFailure : ReadResult Unit) (fun t => some t)
        ≠ (LoadOutcome.stoppedWithDataError : LoadOutcome Unit)
    ∧ load_data (ReadResult.parseFailure : ReadResult Unit) (fun t => some t)
        = (LoadOutcome.uncaughtException : LoadOutcome Unit) := by
  exact ⟨by decide, rfl⟩

/-! ## Derived vaccination rate (claim C8; modelled from the spec) -/

/-- C8: vaccination_rate equals min(people_vaccinated / population, 1) * 100:
it is 60 on the spec's example (600 of 1000), clamps to 100 when
people_vaccinated exceeds population, never exceeds 100, and below the cap it
is exactly the unclamped percentage. -/
theorem vaccination_rate_spec :
    vaccination_rate 600 1000 = 60
    ∧ vaccination_rate 1200 1000 = 100
    ∧ (∀ pv pop : ℚ, vaccination_rate pv pop ≤ 100)
    ∧ (∀ pv pop : ℚ, 0 < pop → pv ≤ pop → vaccination_rate pv pop = pv / pop * 100)
    ∧ (∀ pv pop : ℚ, 0 < pop → pop ≤ pv → vaccination_rate pv pop = 100) := by
  refine ⟨by norm_num [vaccination_rate], by norm_num [vaccination_rate], ?_, ?_, ?_⟩
  · intro pv pop
    unfold vaccination_rate
    nlinarith [min_le_right (pv / pop) 1]
  · intro pv pop hpop hle
    unfold vaccination_rate
    rw [min_eq_left ((div_le_one hpop).mpr hle)]
  · intro pv pop hpop hge
    unfold vaccination_rate
    rw [min_eq_right ((one_le_div hpop).mpr hge)]
    norm_num

theorem vaccination_rate_spec_witness :
    vaccination_rate 600 1000 = 600 / 1000 * 100 :=
  vaccination_rate_spec.2.2.2.1 600 1000 (by norm_num) (by norm_num)

/-! ## KPI period delta (claim C4) -/

theorem prev_cases_zero_of_empty (g : List Record) (e : Int)
    (h : past_data g e = []) : prev_cases g e = 0 := by
  unfold prev_cases past_latest
  rw [h]
  rfl

/-- The amended C4: the delta is absent whenever the comparison window has no
rows, and whenever the past aggregate is zero or negative (the code's guard
is strictly positive, not merely nonzero); when the past aggregate is
strictly positive the delta is exactly
(current - past) / past * 100. -/
theorem cases_delta_spec (g : List Record) (e : Int) :
    (past_data g e = [] → cases_delta g e = none)
    ∧ (prev_cases g e ≤ 0 → cases_delta g e = none)
    ∧ (0 < prev_cases g e →
        cases_delta g e = some ((((total_cases_kpi g : ℚ) - (prev_cases g e : ℚ)) /
          (prev_cases g e : ℚ)) * 100)) := by
  refine ⟨?_, ?_, ?_⟩
  · intro h
    unfold cases_delta
    rw [if_pos (List.isEmpty_iff.mpr h)]
  · intro h
    unfold cases_delta
    by_cases hemp : (past_data g e).isEmpty
    · rw [if_pos hemp]
    · rw [if_neg hemp, if_neg (not_lt.mpr h)]
  · intro h
    have hne : ¬(past_data g e).isEmpty := by
      intro hemp
      rw [prev_cases_zero_of_empty g e (List.isEmpty_iff.mp hemp)] at h
      exact lt_irrefl 0 h
    unfold cases_delta
    rw [if_neg hne, if_pos h]

theorem cases_delta_spec_witness :
    cases_delta [mkRec "B" none 1 5 0, mkRec "B" none 40 20 0] 40 =
      some ((((total_cases_kpi [mkRec "B" none 1 5 0, mkRec "B" none 40 20 0] : ℚ) -
        (prev_cases [mkRec "B" none 1 5 0, mkRec "B" none 40 20 0] 40 : ℚ)) /
        (prev_cases [mkRec "B" none 1 5 0, mkRec "B" none 40 20 0] 40 : ℚ)) * 100) :=
  (cases_delta_spec [mkRec "B" none 1 5 0, mkRec "B" none 40 20 0] 40).2.2 (by decide)

/-- C4 counterexample: with a negative past aggregate (-5) the comparison
window is non-empty and the aggregate is neither zero nor absent, yet the
code returns no delta instead of the formula value, because its guard
requires the past aggregate to be strictly positive. -/
theorem cases_delta_counterexample :
    past_data deltaTable 40 ≠ []
    ∧ prev_cases deltaTable 40 = -5
    ∧ cases_delta deltaTable 40 = none := by
  refine ⟨by decide, by decide, by decide⟩

/-! ## Shared facts about location keys and stable selection -/

theorem mem_location_keys (g : List Record) (k : String) :
    k ∈ location_keys g ↔ k ∈ g.map (·.location) := by
  unfold location_keys
  rw [sortK_mem, List.mem_dedup]

theorem location_keys_nodup (g : List Record) : (location_keys g).Nodup :=
  ((sortK_perm locKey _).nodup_iff).mpr (List.nodup_dedup _)

theorem location_keys_length (g : List Record) :
    (location_keys g).length = ((g.map (·.location)).dedup).length :=
  sortK_length _ _

theorem locKey_le_iff (a b : String) : locKey a ≤ locKey b ↔ a ≤ b := by
  rw [String.le_iff_toList_le]
  exact Iff.rfl

theorem locKey_lt_iff (a b : String) : locKey a < locKey b ↔ a < b := by
  rw [String.lt_iff_toList_lt]
  exact Iff.rfl

theorem location_keys_sorted (g : List Record) :
    (location_keys g).Pairwise (· ≤ ·) :=
  (sortK_pairwise locKey _).imp fun h => (locKey_le_iff _ _).mp h

theorem group_filter_ne_nil (g : List Record) (k : String)
    (hk : k ∈ g.map (·.location)) :
    g.filter (fun r => decide (r.location = k)) ≠ [] := by
  rcases List.mem_map.mp hk with ⟨r, hr, hrk⟩
  intro hnil
  have hmem : r ∈ g.filter (fun r => decide (r.location = k)) :=
    List.mem_filter.mpr ⟨hr, decide_eq_true hrk⟩
  rw [hnil] at hmem
  exact absurd hmem (List.not_mem_nil r)

theorem mem_take_or_drop {α : Type _} (l : List α) (n : ℕ) {x : α} (hx : x ∈ l) :
    x ∈ l.take n ∨ x ∈ l.drop n := by
  rw [← List.take_append_drop n l] at hx
  exact List.mem_append.mp hx

theorem sortK_take_drop_rel {α β : Type _} [LinearOrder β] (key : α → β) (l : List α) (n : ℕ)
    {x y : α} (hx : x ∈ (sortK key l).take n) (hy : y ∈ (sortK key l).drop n) :
    key x ≤ key y := by
  have hp : (sortK key l).Pairwise (fun a b => key a ≤ key b) := sortK_pairwise key l
  rw [← List.take_append_drop n (sortK key l)] at hp
  exact (List.pairwise_append.mp hp).2.2 x hx y hy

/-! ## Default trend selection (claim C10) -/

theorem top_locations_mem (n : ℕ) (g : List Record) (k : String)
    (hk : k ∈ top_locations n g) :
    k ∈ location_keys g ∧ (k, max_cases g k) ∈
      (sortK (fun p : String × Int => OrderDual.toDual p.2)
        ((location_keys g).map fun k2 => (k2, max_cases g k2))).take n := by
  unfold top_locations at hk
  rcases List.mem_map.mp hk with ⟨p, hp, hp1⟩
  have hps : p ∈ sortK (fun p : String × Int => OrderDual.toDual p.2)
      ((location_keys g).map fun k2 => (k2, max_cases g k2)) :=
    List.mem_of_mem_take hp
  have hpser := (sortK_mem _ _ p).mp hps
  rcases List.mem_map.mp hpser with ⟨k2, hk2, hk2p⟩
  have hk2k : k2 = k := by
    rw [← hk2p] at hp1
    exact hp1
  subst hk2k
  rw [← hk2p] at hp
  exact ⟨hk2, hp⟩

theorem top_locations_length (n : ℕ) (g : List Record) :
    (top_locations n g).length = min n ((g.map (·.location)).dedup).length := by
  unfold top_locations
  rw [List.length_map, List.length_take, sortK_length, List.length_map, location_keys_length]

/-- The amended C10: with an empty entity selection the trend subset equals
the subset obtained by explicitly selecting the top-5 entities by max
total_cases in the window; that fallback list has min(5, distinct entity
count) entities, each dominating every non-selected entity's max
total_cases; and the subset is non-empty whenever the filtered window is
non-empty (but empty when the window itself is empty). -/
theorem trend_default_spec (g : List Record) :
    trend_df g [] = trend_df g (top_locations 5 g)
    ∧ (top_locations 5 g).length = min 5 ((g.map (·.location)).dedup).length
    ∧ (g ≠ [] → trend_df g [] ≠ [])
    ∧ (∀ k ∈ top_locations 5 g, ∀ k2, k2 ∈ g.map (·.location) →
        k2 ∉ top_locations 5 g → max_cases g k2 ≤ max_cases g k) := by
  refine ⟨?_, top_locations_length 5 g, ?_, ?_⟩
  · unfold trend_df
    by_cases h : (top_locations 5 g).isEmpty
    · rw [if_pos (by rfl), if_pos h]
    · rw [if_pos (by rfl), if_neg h]
  · intro hg
    rcases List.exists_mem_of_ne_nil g hg with ⟨r0, hr0⟩
    have hdedup : (g.map (·.location)).dedup ≠ [] := by
      intro hnil
      have : r0.location ∈ (g.map (·.location)).dedup :=
        List.mem_dedup.mpr (List.mem_map_of_mem _ hr0)
      rw [hnil] at this
      exact absurd this (List.not_mem_nil _)
    have hlen : 0 < (top_locations 5 g).length := by
      rw [top_locations_length]
      exact lt_min (by norm_num) (List.length_pos.mpr hdedup)
    rcases List.exists_mem_of_ne_nil _ (List.length_pos.mp hlen) with ⟨k0, hk0⟩
    have hk0keys := (top_locations_mem 5 g k0 hk0).1
    rcases List.mem_map.mp ((mem_location_keys g k0).mp hk0keys) with ⟨r1, hr1, hr1k⟩
    intro hnil
    have hmem : r1 ∈ trend_df g [] := by
      unfold trend_df
      rw [if_pos (by rfl)]
      exact List.mem_filter.mpr ⟨hr1, (contains_true_iff _ _).mpr (hr1k ▸ hk0)⟩
    rw [hnil] at hmem
    exact absurd hmem (List.not_mem_nil r1)
  · intro k hk k2 hk2 hk2top
    rcases top_locations_mem 5 g k hk with ⟨_, hktake⟩
    have hk2keys : k2 ∈ location_keys g := (mem_location_keys g k2).mpr hk2
    have hk2ser : (k2, max_cases g k2) ∈
        sortK (fun p : String × Int => OrderDual.toDual p.2)
          ((location_keys g).map fun k3 => (k3, max_cases g k3)) :=
      (sortK_mem _ _ _).mpr (List.mem_map_of_mem _ hk2keys)
    rcases mem_take_or_drop _ 5 hk2ser with htk | hdr
    · exact absurd (by
        unfold top_locations
        exact List.mem_map_of_mem Prod.fst htk) hk2top
    · exact sortK_take_drop_rel (fun p : String × Int => OrderDual.toDual p.2) _ 5 hktake hdr

/-- C10 counterexample: for a non-empty table whose filtered window is
empty, the empty entity selection yields an empty trend subset — the claimed
it-is-never-empty default fails (and there is no set of 5 entities at all). -/
theorem trend_default_counterexample :
    trendTable ≠ [] ∧ trend_df (global_df trendTable trendFilter) [] = [] := by
  refine ⟨by decide, by decide⟩

theorem trend_default_spec_witness :
    trend_df [mkRec "A" none 1 3 3] [] ≠ [] :=
  (trend_default_spec [mkRec "A" none 1 3 3]).2.2.1 (by decide)

/-! ## Latest-per-entity snapshot (claim C1) -/

theorem filterMap_map_eq_self {α γ : Type _} (f : α → Option γ) (h : γ → α) (l : List α)
    (H : ∀ a ∈ l, ∃ b, f a = some b ∧ h b = a) :
    (l.filterMap f).map h = l := by
  induction l with
  | nil => rfl
  | cons x xs ih =>
    rcases H x (List.mem_cons_self x xs) with ⟨b, hb, hhb⟩
    rw [List.filterMap_cons_some hb, List.map_cons, hhb,
      ih fun a ha => H a (List.mem_cons_of_mem x ha)]

theorem latest_sorted_perm (g : List Record) :
    date_sorted_perm g (sortK (fun r : Record => r.date) g) :=
  ⟨sortK_perm _ g, sortK_pairwise _ g⟩

theorem snapshot_group_some (g s : List Record) (hs : date_sorted_perm g s) (k : String)
    (hk : k ∈ location_keys g) :
    ∃ r, groupby_last (s.filter fun x => decide (x.location = k)) = some r
      ∧ r.location = k := by
  have hkg : k ∈ g.map (·.location) := (mem_location_keys g k).mp hk
  rcases List.mem_map.mp hkg with ⟨x, hxg, hxk⟩
  have hxs : x ∈ s := hs.1.mem_iff.mpr hxg
  have hne : s.filter (fun x => decide (x.location = k)) ≠ [] := by
    intro hnil
    have hmem : x ∈ s.filter (fun x => decide (x.location = k)) :=
      List.mem_filter.mpr ⟨hxs, decide_eq_true hxk⟩
    rw [hnil] at hmem
    exact absurd hmem (List.not_mem_nil x)
  cases hlast : (s.filter fun x => decide (x.location = k)).getLast? with
  | none => exact absurd (List.getLast?_eq_none_iff.mp hlast) hne
  | some x₀ =>
    refine ⟨{ x₀ with continent :=
      ((s.filter fun x => decide (x.location = k)).filterMap (·.continent)).getLast? }, ?_, ?_⟩
    · unfold groupby_last
      rw [hlast]
      rfl
    · have hx₀ : x₀ ∈ s.filter (fun x => decide (x.location = k)) := mem_of_getLast?_eq hlast
      exact of_decide_eq_true (List.mem_filter.mp hx₀).2

theorem snapshot_of_locations (g s : List Record) (hs : date_sorted_perm g s) :
    (snapshot_of g s).map (·.location) = location_keys g := by
  unfold snapshot_of
  refine filterMap_map_eq_self _ _ _ ?_
  intro k hk
  rcases snapshot_group_some g s hs k hk with ⟨r, hr, hrk⟩
  exact ⟨r, hr, hrk⟩

theorem latest_global_locations (g : List Record) :
    (latest_global g).map (·.location) = location_keys g := by
  unfold latest_global
  exact snapshot_of_locations g _ (latest_sorted_perm g)

/-- The amended C1: for every date-ordered arrangement of the window (the
unstable quicksort of sort_values('date') returns one such arrangement,
with the relative order of equal dates unspecified), the snapshot contains
exactly one row per distinct entity; each entity's snapshot row takes its
values from a row of the input with the maximum date for that entity —
which of several max-date rows is unspecified — except the region_group
column, for which groupby.last() takes the entity's last non-missing value
(so that value, when present, also comes from some row of the entity); and
the snapshot's row order is the ascending order of the entity names (pandas
groupby's sorted keys), not the distinct-entity encounter order.  The
executable latest_global is the instance at one admissible arrangement. -/
theorem latest_global_spec (g s : List Record) (hs : date_sorted_perm g s) :
    latest_global g = snapshot_of g (sortK (fun r : Record => r.date) g)
    ∧ date_sorted_perm g (sortK (fun r : Record => r.date) g)
    ∧ ((snapshot_of g s).map (·.location)).Nodup
    ∧ (snapshot_of g s).map (·.location) = location_keys g
    ∧ ((snapshot_of g s).map (·.location)).Pairwise (· ≤ ·)
    ∧ ∀ r ∈ snapshot_of g s, ∃ x ∈ g,
        x.location = r.location ∧ x.date = r.date
        ∧ (∀ y ∈ g, y.location = r.location → y.date ≤ r.date)
        ∧ r = { x with continent := r.continent }
        ∧ ∀ c, r.continent = some c →
            ∃ y ∈ g, y.location = r.location ∧ y.continent = some c := by
  refine ⟨rfl, latest_sorted_perm g, ?_, snapshot_of_locations g s hs, ?_, ?_⟩
  · rw [snapshot_of_locations g s hs]
    exact location_keys_nodup g
  · rw [snapshot_of_locations g s hs]
    exact location_keys_sorted g
  · intro r hr
    unfold snapshot_of at hr
    rcases List.mem_filterMap.mp hr with ⟨k, hk, hgl⟩
    unfold groupby_last at hgl
    rcases Option.map_eq_some'.mp hgl with ⟨x₀, hx₀last, hx₀r⟩
    have hx₀grp : x₀ ∈ s.filter (fun x => decide (x.location = k)) :=
      mem_of_getLast?_eq hx₀last
    have hx₀s : x₀ ∈ s := List.mem_of_mem_filter hx₀grp
    have hx₀g : x₀ ∈ g := hs.1.mem_iff.mp hx₀s
    have hx₀k : x₀.location = k := of_decide_eq_true (List.mem_filter.mp hx₀grp).2
    subst hx₀r
    refine ⟨x₀, hx₀g, rfl, rfl, ?_, rfl, ?_⟩
    · intro y hy hyloc
      have hys : y ∈ s := hs.1.mem_iff.mpr hy
      have hygrp : y ∈ s.filter (fun x => decide (x.location = k)) := by
        refine List.mem_filter.mpr ⟨hys, decide_eq_true ?_⟩
        exact hyloc.trans hx₀k
      have hgrp_pw : (s.filter (fun x => decide (x.location = k))).Pairwise
          (fun a b => a.date ≤ b.date) :=
        hs.2.sublist (List.filter_sublist s)
      exact pairwise_getLast?_max (fun r : Record => r.date) hgrp_pw hx₀last y hygrp
    · intro c hc
      have hc2 : ((s.filter fun x => decide (x.location = k)).filterMap
          (·.continent)).getLast? = some c := hc
      have hmem := mem_of_getLast?_eq hc2
      rcases List.mem_filterMap.mp hmem with ⟨y, hygrp, hyc⟩
      refine ⟨y, hs.1.mem_iff.mp (List.mem_of_mem_filter hygrp), ?_, hyc⟩
      have h1 : y.location = k := of_decide_eq_true (List.mem_filter.mp hygrp).2
      rw [h1]
      exact hx₀k.symm

/-- C1 counterexample: the distinct-entity encounter order of the input is
B, A but the snapshot's rows come out in ascending entity order A, B —
groupby sorts its keys, so the claimed encounter order is not preserved. -/
theorem latest_global_counterexample :
    snapshotTable.map (·.location) = ["B", "A"]
    ∧ (latest_global snapshotTable).map (·.location) = ["A", "B"] := by
  refine ⟨by decide, by decide⟩

theorem latest_global_spec_witness :
    ∃ x ∈ snapshotTable,
      x.location = (mkRec "A" none 2 7 0).location
      ∧ x.date = (mkRec "A" none 2 7 0).date
      ∧ (∀ y ∈ snapshotTable, y.location = (mkRec "A" none 2 7 0).location →
          y.date ≤ (mkRec "A" none 2 7 0).date)
      ∧ mkRec "A" none 2 7 0 = { x with continent := (mkRec "A" none 2 7 0).continent }
      ∧ ∀ c, (mkRec "A" none 2 7 0).continent = some c →
          ∃ y ∈ snapshotTable, y.location = (mkRec "A" none 2 7 0).location
            ∧ y.continent = some c :=
  (latest_global_spec snapshotTable snapshotTable
    ⟨List.Perm.refl snapshotTable, by decide⟩).2.2.2.2.2
    (mkRec "A" none 2 7 0) (by decide)

/-! ## Group aggregates and the heatmap (claim C6) -/

theorem continent_summary_keys (latest : List Record) :
    (continent_summary latest).map (·.continent) = continent_keys latest := by
  unfold continent_summary
  rw [List.map_map]
  exact List.map_id _

theorem continent_summary_mem (latest : List Record) (c : String) :
    c ∈ (continent_summary latest).map (·.continent) ↔ ∃ r ∈ latest, r.continent = some c := by
  rw [continent_summary_keys]
  unfold continent_keys
  rw [sortK_mem, List.mem_dedup, List.mem_filterMap]

theorem pivot_keys_nodup (hd : List Record) (toMonth : Int → Int) :
    (pivot_keys hd toMonth).Nodup :=
  ((sortK_perm _ _).nodup_iff).mpr (List.nodup_dedup _)

theorem pivot_keys_mem (hd : List Record) (toMonth : Int → Int) (k : String × Int) :
    k ∈ pivot_keys hd toMonth ↔ ∃ r ∈ hd, (r.location, toMonth r.date) = k := by
  unfold pivot_keys
  rw [sortK_mem, List.mem_dedup, List.mem_map]

theorem assocCell_map_of_mem {ks : List (String × Int)} (hnd : ks.Nodup)
    (v : String × Int → Int) {k : String × Int} (hk : k ∈ ks) :
    assocCell k (ks.map fun k2 => (k2, v k2)) = v k := by
  induction ks with
  | nil => cases hk
  | cons a as ih =>
    rcases List.mem_cons.mp hk with heq | hk2
    · show (if a = k then v a else assocCell k (as.map fun k2 => (k2, v k2))) = v k
      rw [if_pos heq.symm, heq]
    · have hne : a ≠ k := by
        rintro rfl
        exact (List.nodup_cons.mp hnd).1 hk2
      show (if a = k then v a else assocCell k (as.map fun k2 => (k2, v k2))) = v k
      rw [if_neg hne]
      exact ih (List.nodup_cons.mp hnd).2 hk2

theorem assocCell_map_of_not_mem {ks : List (String × Int)}
    (v : String × Int → Int) {k : String × Int} (hk : k ∉ ks) :
    assocCell k (ks.map fun k2 => (k2, v k2)) = 0 := by
  induction ks with
  | nil => rfl
  | cons a as ih =>
    have hne : a ≠ k := fun h => hk (h ▸ List.mem_cons_self a as)
    show (if a = k then v a else assocCell k (as.map fun k2 => (k2, v k2))) = 0
    rw [if_neg hne]
    exact ih fun h => hk (List.mem_cons_of_mem a h)

theorem heatmap_cell_eq (g : List Record) (toMonth : Int → Int) (loc : String) (m : Int) :
    heatmap_cell g toMonth loc m =
      (((heatmap_data g).filter fun r =>
        decide ((r.location, toMonth r.date) = (loc, m))).map (·.new_cases)).sum := by
  unfold heatmap_cell heatmap_pivot
  by_cases hk : (loc, m) ∈ pivot_keys (heatmap_data g) toMonth
  · exact assocCell_map_of_mem (pivot_keys_nodup (heatmap_data g) toMonth) _ hk
  · rw [assocCell_map_of_not_mem _ hk]
    have hnil : (heatmap_data g).filter
        (fun r => decide ((r.location, toMonth r.date) = (loc, m))) = [] := by
      refine List.filter_eq_nil_iff.mpr ?_
      intro r hr hcond
      exact hk ((pivot_keys_mem (heatmap_data g) toMonth (loc, m)).mpr
        ⟨r, hr, of_decide_eq_true hcond⟩)
    rw [hnil]
    rfl

/-- The amended C6: the continent aggregation omits partitions with no rows
(a continent appears in the output iff some input row carries it), but the
monthly heatmap pivot reports 0 — not an undefined cell — for a
(location, month) cell with no underlying rows, because every cell equals
the plain sum of the matching rows' new_cases and fillna(0) turns the
missing cells into that same 0. -/
theorem group_aggregate_empty_partition (latest g : List Record) (toMonth : Int → Int)
    (loc : String) (m : Int) (c : String) :
    (c ∈ (continent_summary latest).map (·.continent) ↔ ∃ r ∈ latest, r.continent = some c)
    ∧ heatmap_cell g toMonth loc m =
        (((heatmap_data g).filter fun r =>
          decide ((r.location, toMonth r.date) = (loc, m))).map (·.new_cases)).sum :=
  ⟨continent_summary_mem latest c, heatmap_cell_eq g toMonth loc m⟩

/-- C6 counterexample: in the pivoted heatmap matrix, row A and column
(month) 2 both exist, entity A has no rows in month 2, and the cell is
reported as the silent zero 0 — not as an undefined/missing cell and not
omitted. -/
theorem heatmap_silent_zero_counterexample :
    heatmap_cell pivotTable id "A" 2 = 0
    ∧ (pivotTable.filter fun r => decide ((r.location, id r.date) = ("A", 2))) = []
    ∧ "A" ∈ (heatmap_data pivotTable).map (·.location)
    ∧ ("A", 2) ∉ pivot_keys (heatmap_data pivotTable) id
    ∧ (2 : Int) ∈ (pivot_keys (heatmap_data pivotTable) id).map Prod.snd := by
  refine ⟨by decide, by decide, by decide, by decide, by decide⟩

/-! ## Top-N ranking (claim C3) -/

theorem latest_global_length (g : List Record) :
    (latest_global g).length = ((g.map (·.location)).dedup).length := by
  have h := congrArg List.length (latest_global_locations g)
  rw [List.length_map] at h
  rw [h, location_keys_length]

theorem latest_global_loc_nodup (g : List Record) :
    ((latest_global g).map (·.location)).Nodup := by
  rw [latest_global_locations g]
  exact location_keys_nodup g

theorem latest_global_loc_pairwise (g : List Record) :
    (latest_global g).Pairwise (fun a b => a.location < b.location) := by
  have hle : ((latest_global g).map (·.location)).Pairwise (· ≤ ·) := by
    rw [latest_global_locations g]
    exact location_keys_sorted g
  have hne : ((latest_global g).map (·.location)).Pairwise (· ≠ ·) :=
    latest_global_loc_nodup g
  have hlt : ((latest_global g).map (·.location)).Pairwise (· < ·) :=
    (hle.and hne).imp fun h => lt_of_le_of_ne h.1 h.2
  exact (List.pairwise_map.mp hlt)

theorem top_df_perm {β : Type _} [LinearOrder β] (metric : Record → β) (g : List Record) :
    List.Perm (top_df metric g)
      ((sortK (fun r => OrderDual.toDual (metric r)) (latest_global g)).take 10) :=
  sortK_perm metric _

/-- The amended C3: top-N returns exactly min(N, distinct entity count)
rows, sorted (ascending) by the chosen metric, with no entity repeated; the
selection is among the entities' latest-snapshot records, every selected
row's metric dominates every non-selected snapshot row's metric, and ties at
the selection boundary are broken by the snapshot's ascending entity-name
order (the kept row's entity name precedes the dropped row's), not by the
original encounter order. -/
theorem top_df_spec {β : Type _} [LinearOrder β] (metric : Record → β) (g : List Record) :
    (top_df metric g).length = min 10 ((g.map (·.location)).dedup).length
    ∧ (top_df metric g).Pairwise (fun a b => metric a ≤ metric b)
    ∧ ((top_df metric g).map (·.location)).Nodup
    ∧ ∀ x ∈ top_df metric g, ∀ y ∈ latest_global g,
        y.location ∉ (top_df metric g).map (·.location) →
          metric y ≤ metric x ∧ (metric y = metric x → x.location < y.location) := by
  set dkey : Record → βᵒᵈ := fun r => OrderDual.toDual (metric r) with hdkey
  set s : List Record := sortK dkey (latest_global g) with hs
  have hperm : List.Perm (top_df metric g) (s.take 10) := top_df_perm metric g
  have hsperm : List.Perm s (latest_global g) := sortK_perm dkey (latest_global g)
  refine ⟨?_, ?_, ?_, ?_⟩
  · rw [hperm.length_eq, List.length_take, hsperm.length_eq, latest_global_length]
  · exact sortK_pairwise metric _
  · have h1 : (s.map (·.location)).Nodup :=
      ((hsperm.map (·.location)).nodup_iff).mpr (latest_global_loc_nodup g)
    have h2 : ((s.take 10).map (·.location)).Sublist (s.map (·.location)) :=
      (List.take_sublist 10 s).map (·.location)
    exact ((hperm.map (·.location)).nodup_iff).mpr (h1.sublist h2)
  · intro x hx y hy hynot
    have hxtake : x ∈ s.take 10 := hperm.mem_iff.mp hx
    have hys : y ∈ s := hsperm.mem_iff.mpr hy
    have hydrop : y ∈ s.drop 10 := by
      rcases mem_take_or_drop s 10 hys with h | h
      · exact absurd (((hperm.map (·.location)).mem_iff).mpr
          (List.mem_map_of_mem (·.location) h)) hynot
      · exact h
    constructor
    · exact sortK_take_drop_rel dkey (latest_global g) 10 hxtake hydrop
    · intro heq
      set p : Record → Bool := fun a => decide (dkey a = dkey x) with hp
      have hpx : p x = true := decide_eq_true rfl
      have hpy : p y = true := by
        rw [hp]
        exact decide_eq_true (congrArg OrderDual.toDual heq)
      have hsplit : (s.take 10).filter p ++ (s.drop 10).filter p =
          (latest_global g).filter p := by
        rw [← List.filter_append, List.take_append_drop]
        exact sortK_filter_key_eq dkey (dkey x) (latest_global g)
      have hpwlat : ((latest_global g).filter p).Pairwise
          (fun a b => a.location < b.location) :=
        (latest_global_loc_pairwise g).sublist (List.filter_sublist _)
      have hpw : ((s.take 10).filter p ++ (s.drop 10).filter p).Pairwise
          (fun a b => a.location < b.location) := by
        rw [hsplit]
        exact hpwlat
      exact (List.pairwise_append.mp hpw).2.2 x
        (List.mem_filter.mpr ⟨hxtake, hpx⟩) y (List.mem_filter.mpr ⟨hydrop, hpy⟩)

/-- C3 counterexample: all eleven entities tie on the metric, so a tie-break
by original encounter order would keep the ten first-encountered entities
K..B and drop A; the code instead keeps A and drops K (nlargest keeps the
first of tied rows in the alphabetically-sorted snapshot order). -/
theorem top_df_counterexample :
    rankTable.map (·.location) = ["K", "J", "I", "H", "G", "F", "E", "D", "C", "B", "A"]
    ∧ (∀ r ∈ rankTable, r.total_cases = 1)
    ∧ "A" ∈ (top_df (fun r => r.total_cases) rankTable).map (·.location)
    ∧ "K" ∉ (top_df (fun r => r.total_cases) rankTable).map (·.location) := by
  refine ⟨by decide, by decide, by decide, by decide⟩

theorem top_df_spec_witness :
    (mkRec "K" none 0 1 0).total_cases ≤ (mkRec "A" none 0 1 0).total_cases
    ∧ ((mkRec "K" none 0 1 0).total_cases = (mkRec "A" none 0 1 0).total_cases →
        (mkRec "A" none 0 1 0).location < (mkRec "K" none 0 1 0).location) :=
  (top_df_spec (fun r => r.total_cases) rankTable).2.2.2
    (mkRec "A" none 0 1 0) (by decide) (mkRec "K" none 0 1 0) (by decide) (by decide)

/-! ## Correlation matrix (claim C5): covariance and variance facts -/

theorem zipWith_map_same {α β γ δ : Type _} (g : β → γ → δ) (f : α → β) (h : α → γ)
    (l : List α) :
    List.zipWith g (l.map f) (l.map h) = l.map fun a => g (f a) (h a) := by
  induction l with
  | nil => rfl
  | cons x xs ih => simp [ih]

theorem colV_eq (g : List Record) (f : Record → ℚ) :
    colV g f = (latest_global g).map f := rfl

theorem covQ_map (L : List Record) (f h : Record → ℚ) :
    covQ (L.map f) (L.map h) =
      (L.map fun r => (f r - meanQ (L.map f)) * (h r - meanQ (L.map h))).sum := by
  unfold covQ
  rw [zipWith_map_same]

theorem covQ_map_comm (L : List Record) (f h : Record → ℚ) :
    covQ (L.map f) (L.map h) = covQ (L.map h) (L.map f) := by
  rw [covQ_map, covQ_map]
  refine congrArg List.sum (List.map_congr_left ?_)
  intro r _
  exact mul_comm _ _

theorem varQ_map_nonneg (L : List Record) (f : Record → ℚ) : 0 ≤ varQ (L.map f) := by
  unfold varQ
  rw [covQ_map]
  refine List.sum_nonneg ?_
  intro q hq
  rcases List.mem_map.mp hq with ⟨r, -, rfl⟩
  exact mul_self_nonneg _

theorem sum_map_eq_fin_sum {γ : Type _} (l : List γ) (f : γ → ℚ) :
    (l.map f).sum = ∑ i : Fin l.length, f (l.get i) := by
  conv_lhs => rw [← List.ofFn_get l]
  rw [List.map_ofFn, List.sum_ofFn]
  rfl

theorem covQ_sq_le (L : List Record) (f h : Record → ℚ) :
    covQ (L.map f) (L.map h) ^ 2 ≤ varQ (L.map f) * varQ (L.map h) := by
  unfold varQ
  rw [covQ_map, covQ_map, covQ_map]
  rw [sum_map_eq_fin_sum, sum_map_eq_fin_sum, sum_map_eq_fin_sum]
  have hcs := Finset.sum_mul_sq_le_sq_mul_sq Finset.univ
    (fun i : Fin L.length => f (L.get i) - meanQ (L.map f))
    (fun i : Fin L.length => h (L.get i) - meanQ (L.map h))
  simp only [pow_two] at hcs ⊢
  exact hcs

theorem corrE_symm (g : List Record) (f h : Record → ℚ) :
    corrE (colV g f) (colV g h) = corrE (colV g h) (colV g f) := by
  unfold corrE
  rw [mul_comm (varQ (colV g f)) (varQ (colV g h))]
  rw [colV_eq, colV_eq, covQ_map_comm]

theorem corrE_diag (g : List Record) (f : Record → ℚ) (hv : varQ (colV g f) ≠ 0) :
    corrE (colV g f) (colV g f) = some 1 := by
  unfold corrE
  rw [if_neg (by simpa [mul_self_eq_zero] using hv)]
  congr 1
  have hnn : 0 ≤ varQ (colV g f) := by
    rw [colV_eq]
    exact varQ_map_nonneg _ f
  have hcast : ((varQ (colV g f) * varQ (colV g f) : ℚ) : ℝ) = ((varQ (colV g f) : ℝ)) ^ 2 := by
    push_cast
    ring
  rw [hcast, Real.sqrt_sq (by exact_mod_cast hnn)]
  have hcov : covQ (colV g f) (colV g f) = varQ (colV g f) := rfl
  rw [hcov]
  exact div_self (by exact_mod_cast hv)

theorem corrE_none (g : List Record) (f h : Record → ℚ)
    (hv : varQ (colV g f) = 0 ∨ varQ (colV g h) = 0) :
    corrE (colV g f) (colV g h) = none := by
  unfold corrE
  rw [if_pos (mul_eq_zero.mpr hv)]

theorem corrE_bounds (g : List Record) (f h : Record → ℚ) (c : ℝ)
    (hc : corrE (colV g f) (colV g h) = some c) : -1 ≤ c ∧ c ≤ 1 := by
  unfold corrE at hc
  by_cases hz : varQ (colV g f) * varQ (colV g h) = 0
  · rw [if_pos hz] at hc
    cases hc
  · rw [if_neg hz] at hc
    have hc' : c = ((covQ (colV g f) (colV g h) : ℚ) : ℝ) /
        Real.sqrt (((varQ (colV g f) * varQ (colV g h) : ℚ) : ℝ)) :=
      (Option.some_inj.mp hc).symm
    have hnnf : 0 ≤ varQ (colV g f) := by
      rw [colV_eq]
      exact varQ_map_nonneg _ f
    have hnnh : 0 ≤ varQ (colV g h) := by
      rw [colV_eq]
      exact varQ_map_nonneg _ h
    have hpos : 0 < varQ (colV g f) * varQ (colV g h) :=
      lt_of_le_of_ne (mul_nonneg hnnf hnnh) (Ne.symm hz)
    have hposR : (0 : ℝ) < ((varQ (colV g f) * varQ (colV g h) : ℚ) : ℝ) := by
      exact_mod_cast hpos
    have hsq : (0 : ℝ) < Real.sqrt (((varQ (colV g f) * varQ (colV g h) : ℚ) : ℝ)) :=
      Real.sqrt_pos.mpr hposR
    have hcsq : ((covQ (colV g f) (colV g h) : ℚ) : ℝ) ^ 2 ≤
        ((varQ (colV g f) * varQ (colV g h) : ℚ) : ℝ) := by
      have h1 : covQ (colV g f) (colV g h) ^ 2 ≤ varQ (colV g f) * varQ (colV g h) := by
        rw [colV_eq, colV_eq]
        exact covQ_sq_le (latest_global g) f h
      exact_mod_cast h1
    have habs : |((covQ (colV g f) (colV g h) : ℚ) : ℝ)| ≤
        Real.sqrt (((varQ (colV g f) * varQ (colV g h) : ℚ) : ℝ)) := by
      rw [← Real.sqrt_sq_eq_abs]
      exact Real.sqrt_le_sqrt hcsq
    have hcle : |c| ≤ 1 := by
      rw [hc', abs_div, abs_of_pos hsq]
      exact (div_le_one hsq).mpr habs
    exact abs_le.mp hcle

theorem meanQ_replicate (n : ℕ) (q : ℚ) (hn : n ≠ 0) :
    meanQ (List.replicate n q) = q := by
  unfold meanQ
  rw [List.sum_replicate, List.length_replicate, nsmul_eq_mul, mul_comm, mul_div_assoc,
    div_self (by exact_mod_cast hn), mul_one]

theorem varQ_replicate (n : ℕ) (q : ℚ) : varQ (List.replicate n q) = 0 := by
  cases n with
  | zero => rfl
  | succ m =>
    unfold varQ covQ
    rw [List.zipWith_same, List.map_replicate]
    rw [meanQ_replicate _ _ (Nat.succ_ne_zero m)]
    simp

/-! ## Correlation matrix (claim C5): the matrix and its gate -/

theorem analysis_corr_of_le (g : List Record) (h : (latest_global g).length ≤ 10) :
    analysis_corr g = none := by
  unfold analysis_corr
  rw [if_neg]
  rintro ⟨-, h2⟩
  exact absurd h2 (not_lt.mpr h)

theorem analysis_corr_of_gt (g : List Record) (h : 10 < (latest_global g).length) :
    analysis_corr g = some (corr_matrix g) := by
  unfold analysis_corr
  rw [if_pos ⟨List.length_pos.mp (lt_trans (by norm_num) h), h⟩]

theorem corr_matrix_entry (g : List Record) (i j : ℕ) :
    mEntry (corr_matrix g) i j = (corr_cols[i]?).bind fun f =>
      (corr_cols[j]?).map fun h => corrE (colV g f) (colV g h) := by
  unfold mEntry corr_matrix
  rw [List.getElem?_map]
  cases hi : corr_cols[i]? with
  | none => rfl
  | some f =>
    show ((corr_cols.map fun h => corrE (colV g f) (colV g h))[j]?) =
      (corr_cols[j]?).map fun h => corrE (colV g f) (colV g h)
    rw [List.getElem?_map]

theorem corr_matrix_square (g : List Record) :
    (corr_matrix g).length = corr_cols.length := by
  unfold corr_matrix
  rw [List.length_map]

theorem corr_matrix_rows (g : List Record) :
    ∀ row ∈ corr_matrix g, row.length = corr_cols.length := by
  intro row hrow
  unfold corr_matrix at hrow
  rcases List.mem_map.mp hrow with ⟨f, -, rfl⟩
  rw [List.length_map]

theorem corr_matrix_symm (g : List Record) (i j : ℕ) :
    mEntry (corr_matrix g) i j = mEntry (corr_matrix g) j i := by
  rw [corr_matrix_entry, corr_matrix_entry]
  cases hi : corr_cols[i]? with
  | none =>
    cases hj : corr_cols[j]? with
    | none => rfl
    | some h => rfl
  | some f =>
    cases hj : corr_cols[j]? with
    | none => rfl
    | some h =>
      show some (corrE (colV g f) (colV g h)) = some (corrE (colV g h) (colV g f))
      rw [corrE_symm]

theorem corr_matrix_diag_one (g : List Record) (i : ℕ) (f : Record → ℚ)
    (hi : corr_cols[i]? = some f) (hv : varQ (colV g f) ≠ 0) :
    mEntry (corr_matrix g) i i = some (some 1) := by
  rw [corr_matrix_entry, hi]
  show some (corrE (colV g f) (colV g f)) = some (some 1)
  rw [corrE_diag g f hv]

theorem corr_matrix_diag_none (g : List Record) (i : ℕ) (f : Record → ℚ)
    (hi : corr_cols[i]? = some f) (hv : varQ (colV g f) = 0) :
    mEntry (corr_matrix g) i i = some none := by
  rw [corr_matrix_entry, hi]
  show some (corrE (colV g f) (colV g f)) = some none
  rw [corrE_none g f f (Or.inl hv)]

theorem corr_matrix_bounds (g : List Record) (i j : ℕ) (c : ℝ)
    (hc : mEntry (corr_matrix g) i j = some (some c)) : -1 ≤ c ∧ c ≤ 1 := by
  rw [corr_matrix_entry] at hc
  cases hi : corr_cols[i]? with
  | none =>
    rw [hi] at hc
    cases hc
  | some f =>
    rw [hi] at hc
    cases hj : corr_cols[j]? with
    | none =>
      rw [hj] at hc
      cases hc
    | some h =>
      rw [hj] at hc
      have hc2 : corrE (colV g f) (colV g h) = some c := by
        simpa using hc
      exact corrE_bounds g f h c hc2

/-- The amended C5: the fixed column list has 8 entries; with at most 10
snapshot rows the module yields the insufficient-data outcome instead of a
matrix, with 11 or more it yields the matrix; the matrix is square of size
8, symmetric, every defined entry lies in [-1, 1], and a diagonal entry is
1.0 when its column has nonzero variance — but the diagonal entry of a
zero-variance (constant) column is an undefined (NaN) cell, not 1.0. -/
theorem corr_matrix_spec (g : List Record) :
    corr_cols.length = 8
    ∧ ((latest_global g).length ≤ 10 → analysis_corr g = none)
    ∧ (10 < (latest_global g).length → analysis_corr g = some (corr_matrix g))
    ∧ (corr_matrix g).length = corr_cols.length
    ∧ (∀ row ∈ corr_matrix g, row.length = corr_cols.length)
    ∧ (∀ i j, mEntry (corr_matrix g) i j = mEntry (corr_matrix g) j i)
    ∧ (∀ i f, corr_cols[i]? = some f → varQ (colV g f) ≠ 0 →
        mEntry (corr_matrix g) i i = some (some 1))
    ∧ (∀ i f, corr_cols[i]? = some f → varQ (colV g f) = 0 →
        mEntry (corr_matrix g) i i = some none)
    ∧ (∀ i j c, mEntry (corr_matrix g) i j = some (some c) → -1 ≤ c ∧ c ≤ 1) :=
  ⟨rfl, analysis_corr_of_le g, analysis_corr_of_gt g, corr_matrix_square g,
    corr_matrix_rows g, corr_matrix_symm g,
    fun i f hi hv => corr_matrix_diag_one g i f hi hv,
    fun i f hi hv => corr_matrix_diag_none g i f hi hv,
    fun i j c hc => corr_matrix_bounds g i j c hc⟩

/-- C5 counterexample: on a snapshot of 11 rows whose first correlation
column (total_cases) is constant, the matrix is computed (the row-count gate
passes) but its (0,0) diagonal entry is the undefined NaN cell, not 1.0 —
pandas nancorr emits NaN whenever a column's variance is zero, including on
the diagonal. -/
theorem corr_diag_counterexample :
    10 < (latest_global constTable).length
    ∧ mEntry (corr_matrix constTable) 0 0 = some none := by
  refine ⟨by decide, ?_⟩
  have hv : varQ (colV constTable fun r => (r.total_cases : ℚ)) = 0 := by
    have hcol : colV constTable (fun r => (r.total_cases : ℚ)) = List.replicate 11 7 := by
      decide
    rw [hcol]
    exact varQ_replicate 11 7
  exact corr_matrix_diag_none constTable 0 (fun r => (r.total_cases : ℚ)) rfl hv

theorem corr_matrix_spec_witness :
    analysis_corr spreadTable = some (corr_matrix spreadTable)
    ∧ mEntry (corr_matrix spreadTable) 0 0 = some (some 1) := by
  refine ⟨(corr_matrix_spec spreadTable).2.2.1 (by decide), ?_⟩
  refine (corr_matrix_spec spreadTable).2.2.2.2.2.2.1 0 (fun r => (r.total_cases : ℚ)) rfl ?_
  have hcol : colV spreadTable (fun r => (r.total_cases : ℚ)) =
      [0, 1, 2, 3, 4, 5, 6, 7, 8, 9, 10] := by decide
  rw [hcol]
  norm_num [varQ, covQ, meanQ, List.zipWith_same]

end DV
